import Mathlib

/-
Verification development for the adb-gui device command orchestration and
output-parsing layer (package `internal/adb`, with the label-enrichment
scheduler of `internal/ui`).

Strings from the Go source are modelled as `List Char`; the Go standard
library string helpers used by the code (strings.TrimSpace, strings.Split,
strings.Fields, strings.Contains, strings.HasPrefix, strings.TrimSuffix,
strings.Join, strconv.ParseInt/Atoi) are embedded below.  External command
invocations are modelled as oracle arguments: each `(output, error)` pair
an operation obtains from `Exec`/`ExecSerial`/`ExecFastboot`/`ExecSerialRaw`
is passed in explicitly, so operations become pure functions of those
results.  Go `error` values are `Option (List Char)` (the error text;
the code only compares them with nil).  Go maps are association lists with
upsert semantics; all map-level claims are stated through `lookupA`, which
is insensitive to iteration order.
-/

set_option maxHeartbeats 1000000

namespace AdbGui

/-- ASCII whitespace predicate of Go `unicode.IsSpace` (the inputs involved
are ASCII): space, tab, newline, vertical tab, form feed, carriage return. -/
def goIsSpace (c : Char) : Bool :=
  c = ' ' || c = '\t' || c = '\n' || c = '\x0b' || c = '\x0c' || c = '\r'

/-- Whitespace class of Go regexp `\s`: `[\t\n\f\r ]` (no vertical tab). -/
def reIsSpace (c : Char) : Bool :=
  c = '\t' || c = '\n' || c = '\x0c' || c = '\r' || c = ' '

/-- Model of `strings.TrimSpace` (left part). -/
def goTrimLeft (s : List Char) : List Char := s.dropWhile goIsSpace

/-- Model of `strings.TrimSpace` (right part). -/
def goTrimRight (s : List Char) : List Char :=
  (s.reverse.dropWhile goIsSpace).reverse

/-- Model of `strings.TrimSpace`. -/
def goTrim (s : List Char) : List Char := goTrimRight (goTrimLeft s)

/-- Model of `strings.Split(s, "\n")`: the list of newline-separated pieces
(one more piece than separators; an empty string yields one empty piece). -/
def splitNl : List Char → List (List Char)
  | [] => [[]]
  | c :: rest =>
    if c = '\n' then [] :: splitNl rest
    else
      match splitNl rest with
      | [] => [[c]]
      | t :: ts => (c :: t) :: ts

/-- Helper for `goFields`: accumulates the current (reversed) token. -/
def goFieldsAux (cur : List Char) : List Char → List (List Char)
  | [] => if cur = [] then [] else [cur.reverse]
  | c :: rest =>
    if goIsSpace c then
      if cur = [] then goFieldsAux [] rest
      else cur.reverse :: goFieldsAux [] rest
    else goFieldsAux (c :: cur) rest

/-- Model of `strings.Fields`: splits around runs of whitespace, no empties. -/
def goFields (s : List Char) : List (List Char) := goFieldsAux [] s

/-- Model of `strings.HasPrefix pat s` (arguments: pattern, then string). -/
def startsWith : List Char → List Char → Bool
  | [], _ => true
  | _ :: _, [] => false
  | p :: ps, c :: cs => p = c && startsWith ps cs

/-- Model of `strings.Contains s sub` (arguments: substring, then string). -/
def containsSub (sub : List Char) : List Char → Bool
  | [] => startsWith sub []
  | c :: rest => startsWith sub (c :: rest) || containsSub sub rest

/-- Model of `strings.Join xs "\n"`. -/
def joinNl : List (List Char) → List Char
  | [] => []
  | [x] => x
  | x :: y :: rest => x ++ '\n' :: joinNl (y :: rest)

/-- ASCII lower-casing, model of `strings.ToLower` on ASCII data. -/
def toLowerAscii (s : List Char) : List Char :=
  s.map fun c => if 'A' ≤ c && c ≤ 'Z' then Char.ofNat (c.toNat + 32) else c

/-- Numeric value of a digit string. -/
def natOfDigits (ds : List Char) : Nat :=
  ds.foldl (fun acc c => 10 * acc + (c.toNat - 48)) 0

/-- Model of `strconv.ParseInt(s, 10, 64)`: optional sign, non-empty digit
run, value representable in a signed 64-bit integer; `none` models a
non-nil error (syntax or range). -/
def goParseInt64 (s : List Char) : Option Int :=
  let signed : Bool × List Char :=
    match s with
    | '+' :: rest => (false, rest)
    | '-' :: rest => (true, rest)
    | _ => (false, s)
  let ds := signed.2
  if ds = [] then none
  else if ds.all Char.isDigit then
    let v : Int := if signed.1 then -(natOfDigits ds : Int) else (natOfDigits ds : Int)
    if -(2 ^ 63) ≤ v && v ≤ 2 ^ 63 - 1 then some v else none
  else none

/-- Model of `strconv.Atoi` on a pure digit string with the error ignored,
as in `id, _ := strconv.Atoi(mm[1])`: on range error ParseInt returns the
maximum magnitude, so the result clamps at `2^63 - 1`. -/
def goAtoiClampDigits (ds : List Char) : Nat :=
  min (natOfDigits ds) (2 ^ 63 - 1)

/-- First-wins association lookup (observational content of a Go map). -/
def lookupA {ν : Type} (m : List (List Char × ν)) (k : List Char) : Option ν :=
  match m with
  | [] => none
  | (k', v) :: rest => if k' = k then some v else lookupA rest k

/-- Go map assignment `m[k] = v`: replace an existing binding, else append. -/
def upsertA {ν : Type} (m : List (List Char × ν)) (k : List Char) (v : ν) :
    List (List Char × ν) :=
  match m with
  | [] => [(k, v)]
  | (k', v') :: rest => if k' = k then (k, v) :: rest else (k', v') :: upsertA rest k v

/-- Option alternative: first value if present, else the second. -/
def orO {α : Type} : Option α → Option α → Option α
  | some a, _ => some a
  | none, b => b

/-- First non-`none` element of a list of options. -/
def firstSome {α : Type} : List (Option α) → Option α
  | [] => none
  | some a :: _ => some a
  | none :: rest => firstSome rest

/- ### GetVarAll: the fastboot `getvar all` parser (adb.go, GetVarAll)

The source applies `regexp ^\(bootloader\) (.+?):(.*)` to each
`strings.TrimSpace`d line.  With RE2 leftmost-first semantics, the lazy
`(.+?)` makes the key the text before the first colon occurring at index
at least one after the tag (the key group needs at least one character),
and `(.*)` the remainder of the line; both groups are then trimmed and
inserted into the map. -/

/-- Split a string at the first colon: `some (before, after)`. -/
def splitAtFirstColon : List Char → Option (List Char × List Char)
  | [] => none
  | c :: rest =>
    if c = ':' then some ([], rest)
    else (splitAtFirstColon rest).map fun p => (c :: p.1, p.2)

/-- Split at the first colon at index one or later, as forced by the lazy
one-or-more key group of the GetVarAll regex. -/
def splitFirstColonGe1 : List Char → Option (List Char × List Char)
  | [] => none
  | c :: rest => (splitAtFirstColon rest).map fun p => (c :: p.1, p.2)

/-- The literal bootloader tag of the GetVarAll regex. -/
def tagChars : List Char := ("(bootloader) ").toList

/-- Core of the GetVarAll line regex, applied to an already trimmed line:
match the tag, split the remainder at the first colon (at index one or
later), trim both sides. -/
def parseVarCore (t : List Char) : Option (List Char × List Char) :=
  if startsWith tagChars t then
    match splitFirstColonGe1 (t.drop 13) with
    | some (k, v) => some (goTrim k, goTrim v)
    | none => none
  else none

/-- One line of GetVarAll: `strings.TrimSpace`, then the regex. -/
def parseGetVarLine (ln : List Char) : Option (List Char × List Char) :=
  parseVarCore (goTrim ln)

/-- The GetVarAll parser: fold every line's key/value into the map. -/
def getVarVars (out : List Char) : List (List Char × List Char) :=
  (splitNl out).foldl
    (fun m ln =>
      match parseGetVarLine ln with
      | some (k, v) => upsertA m k v
      | none => m)
    []

/-- Matching a pattern prepended to anything succeeds. -/
theorem startsWith_append_self (l x : List Char) : startsWith l (l ++ x) = true := by
  induction l with
  | nil => rfl
  | cons c cs ih => simp [startsWith, ih]

/-- Splitting at the first colon of `a ++ ":" ++ b` recovers `(a, b)` when
`a` is colon-free. -/
theorem splitAtFirstColon_append (a b : List Char)
    (h : a.all (fun c => c ≠ ':') = true) :
    splitAtFirstColon (a ++ ':' :: b) = some (a, b) := by
  induction a with
  | nil => rfl
  | cons c cs ih =>
    simp only [List.all_cons, Bool.and_eq_true, decide_eq_true_eq] at h
    simp [splitAtFirstColon, h.1, ih h.2]

/-- The sample input of claim C1. -/
def c1Input : List Char :=
  ("(bootloader) partition-size:boot: 0x4000000\n(bootloader) version: 0.5").toList

/-- Claim C1 counterexample: on the two sample boot-loader lines the parser
does not map "partition-size:boot" to "0x4000000" (the lazy key group stops
at the first colon, so the key is "partition-size" and the value is
"boot: 0x4000000"); the claimed map is therefore not returned. -/
theorem c1_getvar_claimed_map_false :
    lookupA (getVarVars c1Input) (("partition-size:boot").toList) = none
    ∧ lookupA (getVarVars c1Input) (("partition-size").toList)
        = some (("boot: 0x4000000").toList) := by
  constructor <;> decide

/-- Claim C1 (amended): on the two sample lines the parser returns exactly
the map "partition-size" -> "boot: 0x4000000", "version" -> "0.5"; and in
general, after stripping the "(bootloader) " tag, the first remaining colon
(at index at least one) splits a line into key and value, with both sides
trimmed. -/
theorem c1_getvar_first_colon :
    getVarVars c1Input
      = [((("partition-size").toList), (("boot: 0x4000000").toList)),
         ((("version").toList), (("0.5").toList))]
    ∧ ∀ a b : List Char, a ≠ [] → a.all (fun c => c ≠ ':') = true →
        parseVarCore (tagChars ++ a ++ ':' :: b) = some (goTrim a, goTrim b) := by
  constructor
  · decide
  · intro a b ha hcol
    match a, ha with
    | c :: a', _ =>
      simp only [List.all_cons, Bool.and_eq_true, decide_eq_true_eq] at hcol
      have harg : tagChars ++ (c :: a') ++ ':' :: b = tagChars ++ (c :: (a' ++ ':' :: b)) := by
        simp
      have hsw := startsWith_append_self tagChars (c :: (a' ++ ':' :: b))
      have hdrop : (tagChars ++ (c :: (a' ++ ':' :: b))).drop 13 = c :: (a' ++ ':' :: b) := by
        rw [show (13 : Nat) = tagChars.length from rfl, List.drop_left]
      rw [harg]
      simp [parseVarCore, hsw, hdrop, splitFirstColonGe1,
        splitAtFirstColon_append a' b hcol.2]

/-- Witness for the general conjunct of the C1 theorem, at the second
sample line "(bootloader) version: 0.5". -/
theorem c1_getvar_first_colon_witness :
    parseVarCore (tagChars ++ (("version").toList) ++ ':' :: ((" 0.5").toList))
      = some (goTrim (("version").toList), goTrim ((" 0.5").toList)) :=
  c1_getvar_first_colon.2 (("version").toList) ((" 0.5").toList)
    (by decide) (by decide)

/- ### Users: `cmd user list` / `pm list users` fallback (adb.go, Users)

The source runs `cmd user list`; if that errors or its output lacks the
marker "UserInfo{", it reruns with `pm list users` and parses whatever came
back.  Each trimmed non-empty line is matched against the regex
`UserInfo\{(\d+):([^:}]+).*?\}\s*([a-zA-Z]+)?` (leftmost-first RE2
semantics); a match yields a user with the digit group as id (Atoi, error
ignored, hence clamped), the trimmed name group, and the trimmed optional
letter group as state.  If no users parse, a single default
`{0, "Owner", ""}` is synthesized.  Both shell results are oracles; the
function always returns a nil error together with the output of the last
attempted command. -/

/-- A device user (adb.go `User`). -/
structure GoUser where
  id : Nat
  name : List Char
  state : List Char
deriving DecidableEq

/-- ASCII letter, the regex class `[a-zA-Z]`. -/
def isAsciiAlpha (c : Char) : Bool :=
  ('a' ≤ c && c ≤ 'z') || ('A' ≤ c && c ≤ 'Z')

/-- The literal marker "UserInfo{" looked for by the fallback condition and
opening the per-user regex. -/
def uiMarker : List Char := ("UserInfo\x7b").toList

/-- Scan to the first closing brace (regex `.*?\}`; `.` does not cross a
newline): returns the characters after that brace. -/
def findCloseBrace : List Char → Option (List Char)
  | [] => none
  | c :: rest =>
    if c = '\x7d' then some rest
    else if c = '\n' then none
    else findCloseBrace rest

/-- Attempt the UserInfo regex anchored at the head of `s`: the literal
marker, one or more digits, a colon, one or more characters excluding
colon and closing brace (the name), a lazy gap up to the first closing
brace, optional regex whitespace, then an optional letter run (the state). -/
def matchUserInfoAt (s : List Char) : Option (Nat × List Char × List Char) :=
  if startsWith uiMarker s then
    let r1 := s.drop 9
    let ds := r1.takeWhile Char.isDigit
    if ds = [] then none
    else
      match r1.dropWhile Char.isDigit with
      | ':' :: r3 =>
        let nm := r3.takeWhile fun c => c ≠ ':' && c ≠ '\x7d'
        if nm = [] then none
        else
          match findCloseBrace (r3.dropWhile fun c => c ≠ ':' && c ≠ '\x7d') with
          | some after =>
            let letters := (after.dropWhile reIsSpace).takeWhile isAsciiAlpha
            some (goAtoiClampDigits ds, nm, letters)
          | none => none
      | _ => none
  else none

/-- Leftmost match of the UserInfo regex in a line
(`regexp.FindStringSubmatch`). -/
def matchUserInfo : List Char → Option (Nat × List Char × List Char)
  | [] => none
  | c :: rest =>
    match matchUserInfoAt (c :: rest) with
    | some r => some r
    | none => matchUserInfo rest

/-- Parse the user table: every trimmed non-empty line that matches the
regex contributes a user (name and state trimmed). -/
def parseUsersOut (out : List Char) : List GoUser :=
  (splitNl out).filterMap fun ln =>
    let t := goTrim ln
    if t = [] then none
    else (matchUserInfo t).map fun r => ⟨r.1, goTrim r.2.1, goTrim r.2.2⟩

/-- The command result the Users parser actually consumes: the first
command's output unless it errored or lacks the UserInfo marker, in which
case the second (`pm list users`) result. -/
def usersChosen (r1 r2 : List Char × Option (List Char)) :
    List Char × Option (List Char) :=
  if r1.2 ≠ none ∨ containsSub uiMarker r1.1 = false then r2 else r1

/-- Result triple of the Users operation. -/
structure UsersRes where
  users : List GoUser
  raw : List Char
  err : Option (List Char)
deriving DecidableEq

/-- The Users operation over the two command oracles: choose the output,
parse it, default to the single Owner profile when nothing parsed, and
always return a nil error with the raw output of the last attempted
command. -/
def usersOp (r1 r2 : List Char × Option (List Char)) : UsersRes :=
  let c := usersChosen r1 r2
  let us := parseUsersOut c.1
  ⟨if us = [] then [⟨0, ("Owner").toList, []⟩] else us, c.1, none⟩

/-- When every line fails the matcher, the parse is empty. -/
theorem parseUsersOut_nil_of_all_fail (out : List Char)
    (h : ((splitNl out).all fun l => (matchUserInfo (goTrim l)).isNone) = true) :
    parseUsersOut out = [] := by
  unfold parseUsersOut
  generalize splitNl out = ls at h ⊢
  induction ls with
  | nil => rfl
  | cons l ls ih =>
    simp only [List.all_cons, Bool.and_eq_true, Option.isNone_iff_eq_none] at h
    have hnone : (fun ln =>
        let t := goTrim ln
        if t = [] then none
        else (matchUserInfo t).map fun r => (⟨r.1, goTrim r.2.1, goTrim r.2.2⟩ : GoUser)) l
        = none := by
      simp [h.1]
    exact (List.filterMap_cons_none
      (f := fun ln =>
        let t := goTrim ln
        if t = [] then none
        else (matchUserInfo t).map fun r => (⟨r.1, goTrim r.2.1, goTrim r.2.2⟩ : GoUser))
      hnone).trans (ih h.2)

/-- Claim C2: whichever of the two user-list commands supplied the output,
if zero user records are recognizable in it (no line matches the UserInfo
pattern), the Users operation returns exactly the single default profile
with id 0, name "Owner" and empty state. -/
theorem c2_users_default_owner (r1 r2 : List Char × Option (List Char))
    (h : ((splitNl (usersChosen r1 r2).1).all
        fun l => (matchUserInfo (goTrim l)).isNone) = true) :
    (usersOp r1 r2).users = [⟨0, ("Owner").toList, []⟩] := by
  have hp := parseUsersOut_nil_of_all_fail _ h
  simp [usersOp, hp]

/-- Witness for claim C2: a failing `cmd user list` followed by a
`pm list users` answer in which no user record is recognizable yields
exactly the default Owner profile. -/
theorem c2_users_default_owner_witness :
    (usersOp (("error: device offline").toList, some (("exit status 1").toList))
        (("Users:").toList, none)).users
      = [⟨0, ("Owner").toList, []⟩] :=
  c2_users_default_owner _ _ (by decide)

/-- Claim C9: for every outcome of the two user-list commands the Users
operation returns a nil error, a non-empty profile list, and the raw
output of the last attempted command (the first command's output exactly
when it succeeded and contained the UserInfo marker, the fallback's
otherwise). -/
theorem c9_users_never_error (r1 r2 : List Char × Option (List Char)) :
    (usersOp r1 r2).err = none
    ∧ (usersOp r1 r2).users ≠ []
    ∧ (usersOp r1 r2).raw
        = (if r1.2 = none ∧ containsSub uiMarker r1.1 = true then r1.1 else r2.1) := by
  refine ⟨rfl, ?_, ?_⟩
  · simp only [usersOp]
    split <;> simp_all
  · simp only [usersOp, usersChosen]
    rcases h1 : r1.2 with _ | e <;> rcases h2 : containsSub uiMarker r1.1 with _ | _ <;>
      simp [h1, h2]

/- ### Devices: adb/fastboot enumeration and registry merge (adb.go,
Devices / parseDevices / parseFastbootDevices)

`Devices` runs `adb devices -l` and `fastboot devices`, parses both, and
merges them into a map keyed by serial: every adb record is assigned into
the map, then a fastboot record is added only when its serial is absent.
The returned error is the adb invocation's error (the fastboot error is
discarded with `_`), and the raw text is always `adbOut + "\n" + fbOut`. -/

/-- A device record (adb.go `Device`). -/
structure Dev where
  serial : List Char
  state : List Char
  product : List Char
  model : List Char
  device : List Char
  transportID : List Char
deriving DecidableEq

/-- One `key:value` token of an adb device line: split at the first colon
(`strings.SplitN(tok, ":", 2)`) and assign the known descriptive keys;
tokens without a colon and unknown keys are ignored. -/
def applyAttr (d : Dev) (tok : List Char) : Dev :=
  match splitAtFirstColon tok with
  | none => d
  | some (k, v) =>
    if k = ("product").toList then { d with product := v }
    else if k = ("model").toList then { d with model := v }
    else if k = ("device").toList then { d with device := v }
    else if k = ("transport_id").toList then { d with transportID := v }
    else d

/-- One line of `adb devices -l` output: skip empties and noise markers,
take the first field as serial, a colon-free second field as state, and
fold the remaining `key:value` fields into the attributes. -/
def parseDevLine (ln : List Char) : Option Dev :=
  let t := goTrim ln
  if t = [] then none
  else if startsWith (("List of devices").toList) t
      || startsWith (("*").toList) t
      || containsSub (("daemon").toList) t
      || containsSub (("adb server").toList) t then none
  else
    match goFields t with
    | f0 :: f1 :: rest =>
      let sa : List Char × List (List Char) :=
        if f1.any (fun c => c = ':') then ([], f1 :: rest) else (f1, rest)
      let d := sa.2.foldl applyAttr ⟨f0, sa.1, [], [], [], []⟩
      if f0 = [] then none else some d
    | _ => none

/-- The adb device-table parser. -/
def parseDevices (out : List Char) : List Dev :=
  (splitNl out).filterMap parseDevLine

/-- The fastboot device-table parser: a line contributes a device exactly
when its second whitespace field is the word "fastboot"; the state is
fixed to "fastboot" and no attributes are available. -/
def parseFastbootDevices (out : List Char) : List Dev :=
  (splitNl out).filterMap fun line =>
    match goFields line with
    | f0 :: f1 :: _ =>
      if f1 = ("fastboot").toList then
        some ⟨f0, ("fastboot").toList, [], [], [], []⟩
      else none
    | _ => none

/-- The registry map keyed by serial. -/
abbrev DevMap : Type := List (List Char × Dev)

/-- Phase one of the merge: assign every adb record into the map. -/
def adbPhase (a : List Dev) : DevMap :=
  a.foldl (fun m d => upsertA m d.serial d) []

/-- Phase two step: a fastboot record is added only when absent. -/
def addIfAbsent (m : DevMap) (d : Dev) : DevMap :=
  if lookupA m d.serial = none then m ++ [(d.serial, d)] else m

/-- The registry merge of `Devices`. -/
def mergeDevices (a f : List Dev) : DevMap :=
  f.foldl addIfAbsent (adbPhase a)

/-- Values of the registry map, i.e. the device list `Devices` returns
(the Go map iteration order is arbitrary; claims are stated about the
keyed contents). -/
def valuesOf (m : DevMap) : List Dev := m.map Prod.snd

/-- First-wins lookup of a fastboot record by serial, the effective
contribution of the fastboot list to the merge. -/
def fbLookup : List Dev → List Char → Option Dev
  | [], _ => none
  | d :: rest, s => if d.serial = s then some d else fbLookup rest s

theorem lookupA_append {ν : Type} (m : List (List Char × ν)) (k s : List Char) (v : ν) :
    lookupA (m ++ [(k, v)]) s = orO (lookupA m s) (if k = s then some v else none) := by
  induction m with
  | nil => simp [lookupA, orO]
  | cons p rest ih =>
    by_cases h : p.1 = s
    · simp [lookupA, h, orO]
    · simp [lookupA, h, ih]

theorem lookupA_upsert {ν : Type} (m : List (List Char × ν)) (k s : List Char) (v : ν) :
    lookupA (upsertA m k v) s = if k = s then some v else lookupA m s := by
  induction m with
  | nil => simp [upsertA, lookupA]
  | cons p rest ih =>
    by_cases hk : p.1 = k
    · by_cases hs : k = s <;> simp [upsertA, lookupA, hk, hs]
    · by_cases hs : p.1 = s
      · have : ¬ k = s := fun h => hk (hs.trans h.symm ▸ rfl)
        subst hs
        simp [upsertA, lookupA, hk, this]
      · simp [upsertA, lookupA, hk, hs, ih]

theorem lookupA_addIfAbsent (m : DevMap) (d : Dev) (s : List Char) :
    lookupA (addIfAbsent m d) s
      = orO (lookupA m s) (if d.serial = s then some d else none) := by
  unfold addIfAbsent
  by_cases h : lookupA m d.serial = none
  · simp [h, lookupA_append]
  · rw [if_neg h]
    by_cases hs : d.serial = s
    · subst hs
      rcases hl : lookupA m d.serial with _ | w
      · exact absurd hl h
      · simp [orO]
    · rcases hl : lookupA m s with _ | w <;> simp [orO, hs]

theorem lookupA_foldl_addIfAbsent (f : List Dev) (m : DevMap) (s : List Char) :
    lookupA (f.foldl addIfAbsent m) s = orO (lookupA m s) (fbLookup f s) := by
  induction f generalizing m with
  | nil => cases hl : lookupA m s <;> simp [fbLookup, orO, hl]
  | cons d f' ih =>
    rw [List.foldl_cons, ih, lookupA_addIfAbsent]
    rcases hl : lookupA m s with _ | w <;> by_cases hs : d.serial = s <;>
      simp [orO, fbLookup, hs]

/-- Keys of the map are never duplicated. -/
def NodupK : DevMap → Prop
  | [] => True
  | (k, _) :: rest => lookupA rest k = none ∧ NodupK rest

/-- Every binding's key is the stored device's serial. -/
abbrev KeyCons (m : DevMap) : Prop := ∀ p ∈ m, p.1 = p.2.serial

theorem upsertA_absent (m : DevMap) (k : List Char) (v : Dev)
    (h : lookupA m k = none) : upsertA m k v = m ++ [(k, v)] := by
  induction m with
  | nil => rfl
  | cons p rest ih =>
    simp only [lookupA] at h
    rcases hpk : (decide (p.1 = k)) with _ | _
    · simp only [decide_eq_false_iff_not] at hpk
      rw [if_neg hpk] at h
      simp [upsertA, hpk, ih h]
    · simp only [decide_eq_true_eq] at hpk
      rw [if_pos hpk] at h
      exact absurd h (by simp)

theorem nodupK_append_absent (m : DevMap) (k : List Char) (v : Dev)
    (hn : NodupK m) (h : lookupA m k = none) : NodupK (m ++ [(k, v)]) := by
  induction m with
  | nil => exact ⟨rfl, trivial⟩
  | cons p rest ih =>
    obtain ⟨pk, pv⟩ := p
    obtain ⟨h1, h2⟩ := hn
    simp only [lookupA] at h
    by_cases hpk : pk = k
    · rw [if_pos hpk] at h
      exact absurd h (by simp)
    · rw [if_neg hpk] at h
      refine ⟨?_, ih h2 h⟩
      have hkp : ¬ k = pk := fun hh => hpk hh.symm
      show lookupA (rest ++ [(k, v)]) pk = none
      rw [lookupA_append, h1]
      simp [orO, hkp]

theorem nodupK_upsert (m : DevMap) (k : List Char) (v : Dev)
    (hn : NodupK m) : NodupK (upsertA m k v) := by
  induction m with
  | nil => exact ⟨rfl, trivial⟩
  | cons p rest ih =>
    obtain ⟨pk, pv⟩ := p
    obtain ⟨h1, h2⟩ := hn
    by_cases hpk : pk = k
    · subst hpk
      show NodupK (if pk = pk then (pk, v) :: rest else (pk, pv) :: upsertA rest pk v)
      rw [if_pos rfl]
      exact ⟨h1, h2⟩
    · simp only [upsertA, hpk, if_false]
      refine ⟨?_, ih h2⟩
      have hkp : ¬ k = pk := fun hh => hpk hh.symm
      rw [lookupA_upsert]
      simp [hkp, h1]

theorem keyCons_upsert (m : DevMap) (d : Dev) (hc : KeyCons m) :
    KeyCons (upsertA m d.serial d) := by
  induction m with
  | nil =>
    intro p hp
    simp only [upsertA, List.mem_singleton] at hp
    subst hp; rfl
  | cons q rest ih =>
    have hq := hc q (List.mem_cons_self _ _)
    have hrest : KeyCons rest := fun p hp => hc p (List.mem_cons_of_mem _ hp)
    intro p hp
    by_cases hk : q.1 = d.serial
    · simp only [upsertA, hk, if_true] at hp
      rcases List.mem_cons.mp hp with h | h
      · subst h; rfl
      · exact hrest p h
    · simp only [upsertA, hk, if_false] at hp
      rcases List.mem_cons.mp hp with h | h
      · subst h; exact hq
      · exact ih hrest p h

theorem keyCons_addIfAbsent (m : DevMap) (d : Dev) (hc : KeyCons m) :
    KeyCons (addIfAbsent m d) := by
  unfold addIfAbsent
  split
  · intro p hp
    rcases List.mem_append.mp hp with h | h
    · exact hc p h
    · simp only [List.mem_singleton] at h
      subst h; rfl
  · exact hc

theorem nodupK_addIfAbsent (m : DevMap) (d : Dev) (hn : NodupK m) :
    NodupK (addIfAbsent m d) := by
  unfold addIfAbsent
  split
  · exact nodupK_append_absent m d.serial d hn (by assumption)
  · exact hn

theorem nodupK_adbPhase (a : List Dev) : NodupK (adbPhase a) := by
  have : ∀ (l : List Dev) (m : DevMap), NodupK m →
      NodupK (l.foldl (fun m d => upsertA m d.serial d) m) := by
    intro l
    induction l with
    | nil => intro m h; exact h
    | cons d l' ih => intro m h; exact ih _ (nodupK_upsert m d.serial d h)
  exact this a [] trivial

theorem keyCons_adbPhase (a : List Dev) : KeyCons (adbPhase a) := by
  have : ∀ (l : List Dev) (m : DevMap), KeyCons m →
      KeyCons (l.foldl (fun m d => upsertA m d.serial d) m) := by
    intro l
    induction l with
    | nil => intro m h; exact h
    | cons d l' ih => intro m h; exact ih _ (keyCons_upsert m d h)
  exact this a [] (by intro p hp; cases hp)

theorem nodupK_merge (a f : List Dev) : NodupK (mergeDevices a f) := by
  unfold mergeDevices
  have : ∀ (l : List Dev) (m : DevMap), NodupK m → NodupK (l.foldl addIfAbsent m) := by
    intro l
    induction l with
    | nil => intro m h; exact h
    | cons d l' ih => intro m h; exact ih _ (nodupK_addIfAbsent m d h)
  exact this f _ (nodupK_adbPhase a)

theorem keyCons_merge (a f : List Dev) : KeyCons (mergeDevices a f) := by
  unfold mergeDevices
  have : ∀ (l : List Dev) (m : DevMap), KeyCons m → KeyCons (l.foldl addIfAbsent m) := by
    intro l
    induction l with
    | nil => intro m h; exact h
    | cons d l' ih => intro m h; exact ih _ (keyCons_addIfAbsent m d h)
  exact this f _ (keyCons_adbPhase a)

theorem lookupA_none_ne {ν : Type} (m : List (List Char × ν)) (k : List Char)
    (h : lookupA m k = none) : ∀ q ∈ m, q.1 ≠ k := by
  induction m with
  | nil => intro q hq; cases hq
  | cons p rest ih =>
    intro q hq
    simp only [lookupA] at h
    by_cases hpk : p.1 = k
    · rw [if_pos hpk] at h; exact absurd h (by simp)
    · rw [if_neg hpk] at h
      rcases List.mem_cons.mp hq with he | he
      · subst he; exact hpk
      · exact ih h q he

theorem adbPhase_values (m : DevMap) :
    ∀ acc : DevMap, (∀ p ∈ m, lookupA acc p.1 = none) → NodupK m → KeyCons m →
      (valuesOf m).foldl (fun mm d => upsertA mm d.serial d) acc = acc ++ m := by
  induction m with
  | nil => intro acc _ _ _; simp [valuesOf]
  | cons p m' ih =>
    intro acc habs hn hc
    obtain ⟨h1, h2⟩ := hn
    have hk : p.1 = p.2.serial := hc p (List.mem_cons_self _ _)
    have hacc : lookupA acc p.2.serial = none := by
      rw [← hk]; exact habs p (List.mem_cons_self _ _)
    simp only [valuesOf, List.map_cons, List.foldl_cons]
    rw [upsertA_absent acc p.2.serial p.2 hacc]
    have habs' : ∀ q ∈ m', lookupA (acc ++ [(p.2.serial, p.2)]) q.1 = none := by
      intro q hq
      rw [lookupA_append]
      have hqacc := habs q (List.mem_cons_of_mem _ hq)
      have hne : p.2.serial ≠ q.1 := by
        intro he
        exact lookupA_none_ne m' p.1 h1 q hq (he ▸ hk).symm
      simp [hqacc, orO, hne]
    have := ih (acc ++ [(p.2.serial, p.2)]) habs' h2
      (fun q hq => hc q (List.mem_cons_of_mem _ hq))
    rw [show (valuesOf m') = List.map Prod.snd m' from rfl] at this
    rw [valuesOf] at *
    rw [this]
    rw [← hk]
    simp [show (p.1, p.2) = p from rfl]

theorem fbLookup_mem (f : List Dev) (d : Dev) (hd : d ∈ f) :
    fbLookup f d.serial ≠ none := by
  induction f with
  | nil => cases hd
  | cons d' f' ih =>
    rcases List.mem_cons.mp hd with h | h
    · subst h; simp [fbLookup]
    · by_cases hs : d'.serial = d.serial
      · simp [fbLookup, hs]
      · simp [fbLookup, hs, ih h]

theorem foldl_addIfAbsent_id (f : List Dev) (m : DevMap)
    (h : ∀ d ∈ f, lookupA m d.serial ≠ none) : f.foldl addIfAbsent m = m := by
  induction f with
  | nil => rfl
  | cons d f' ih =>
    have hd := h d (List.mem_cons_self _ _)
    have : addIfAbsent m d = m := by unfold addIfAbsent; rw [if_neg hd]
    rw [List.foldl_cons, this]
    exact ih fun d' hd' => h d' (List.mem_cons_of_mem _ hd')

/-- Claim C3: the Device Registry merge favors bridge records and is
idempotent.  Concretely, for bridge list `[{A, ready}]` and the boot-loader
table listing A and B, the merged registry is exactly A with the bridge
record (state "ready", attributes kept) and B with state "fastboot".  In
general the merged binding for any serial is the bridge-phase binding when
present, else the first fastboot record of that serial (a boot-loader
record is added only when the identifier is absent); and re-merging the
merged contents with the same boot-loader list yields the same registry. -/
theorem c3_merge_bridge_wins_idempotent :
    (mergeDevices [⟨("A").toList, ("ready").toList, [], [], [], []⟩]
        (parseFastbootDevices (("A\tfastboot\nB\tfastboot").toList))
      = [((("A").toList), ⟨("A").toList, ("ready").toList, [], [], [], []⟩),
         ((("B").toList), ⟨("B").toList, ("fastboot").toList, [], [], [], []⟩)])
    ∧ (∀ (a f : List Dev) (s : List Char),
        lookupA (mergeDevices a f) s = orO (lookupA (adbPhase a) s) (fbLookup f s))
    ∧ (∀ a f : List Dev,
        mergeDevices (valuesOf (mergeDevices a f)) f = mergeDevices a f) := by
  refine ⟨by decide, ?_, ?_⟩
  · intro a f s
    exact lookupA_foldl_addIfAbsent f (adbPhase a) s
  · intro a f
    have hvals : adbPhase (valuesOf (mergeDevices a f)) = mergeDevices a f := by
      have := adbPhase_values (mergeDevices a f) []
        (by intro p _; rfl) (nodupK_merge a f) (keyCons_merge a f)
      simpa [adbPhase] using this
    show (f.foldl addIfAbsent (adbPhase (valuesOf (mergeDevices a f)))) = mergeDevices a f
    rw [hvals]
    apply foldl_addIfAbsent_id
    intro d hd
    show lookupA (f.foldl addIfAbsent (adbPhase a)) d.serial ≠ none
    rw [lookupA_foldl_addIfAbsent]
    have hfb := fbLookup_mem f d hd
    rcases hl : lookupA (adbPhase a) d.serial with _ | w
    · simpa [orO, hl] using hfb
    · simp [orO]

/-- Result triple of the Devices operation. -/
structure DevicesRes where
  devs : DevMap
  raw : List Char
  err : Option (List Char)
deriving DecidableEq

/-- The Devices operation over the adb and fastboot command oracles:
parse both outputs, merge them keyed by serial, return the concatenated
raw text and the adb invocation's error. -/
def devicesOp (ra rf : List Char × Option (List Char)) : DevicesRes :=
  ⟨mergeDevices (parseDevices ra.1) (parseFastbootDevices rf.1),
   ra.1 ++ '\n' :: rf.1, ra.2⟩

/-- Claim C10: Devices propagates only the bridge invocation's error (the
result and error are unchanged under any fastboot error, which is
discarded), the raw diagnostic is always the adb output, a newline, and
the fastboot output; and the returned error can be non-nil while the
merged set is non-empty (here: an errored adb call, one fastboot-only
device). -/
theorem c10_devices_error_flow :
    (∀ ra rf : List Char × Option (List Char),
        (devicesOp ra rf).err = ra.2
        ∧ (devicesOp ra rf).raw = ra.1 ++ '\n' :: rf.1
        ∧ ∀ e : Option (List Char), devicesOp ra (rf.1, e) = devicesOp ra rf)
    ∧ ((devicesOp (("List of devices attached\n").toList,
            some (("exit status 1").toList))
          (("X\tfastboot").toList, none)).devs ≠ []
        ∧ (devicesOp (("List of devices attached\n").toList,
            some (("exit status 1").toList))
          (("X\tfastboot").toList, none)).err = some (("exit status 1").toList)) := by
  refine ⟨fun ra rf => ⟨rfl, rfl, fun e => rfl⟩, by decide, by decide⟩

/- ### InstalledPackagesForUserTyped: typed package listing fallback chain
(adb.go, InstalledPackagesForUserTyped)

The chain tries `cmd package list packages --user N <flag>`, then
`pm list packages --user N <flag>`, each accepted only when it did not
error, contains "package:" and has a non-empty trimmed body; otherwise the
unfiltered `pm list packages --user N` result is parsed.  The parse trims
each line, drops empties, strips a leading "package:" marker, and when the
line contains "=", keeps only the text after the last "=" (unless that
would be empty). -/

/-- Characters after the last "=" of a line, when any "=" is present. -/
def afterLastEq : List Char → Option (List Char)
  | [] => none
  | c :: rest =>
    if c = '=' then some ((afterLastEq rest).getD rest)
    else afterLastEq rest

/-- The `path=package` normalization: keep the text after the last "="
when an "=" exists and is not the final character. -/
def eqNorm (l : List Char) : List Char :=
  match afterLastEq l with
  | some s => if s = [] then l else s
  | none => l

/-- Strip a leading "package:" marker. -/
def stripPkgMarker (l : List Char) : List Char :=
  if startsWith (("package:").toList) l then l.drop 8 else l

/-- The package-list parse of the typed chain. -/
def parsePkgsTyped (out : List Char) : List (List Char) :=
  (splitNl out).filterMap fun ln =>
    let t := goTrim ln
    if t = [] then none else some (eqNorm (stripPkgMarker t))

/-- Acceptance predicate of the two precision-flag calls: no error, the
body contains "package:", and the trimmed body is non-empty. -/
def acceptPkgs (r : List Char × Option (List Char)) : Bool :=
  r.2 = none && containsSub (("package:").toList) r.1 && goTrim r.1 ≠ []

/-- The typed package-listing chain over the three command oracles:
the two flag calls are only made for typ "user" (-3) or "system" (-s);
the first accepted output is parsed, else the unfiltered fallback result
is used (error surfaced, otherwise parsed). -/
def instPkgsTyped (typ : List Char)
    (r1 r2 r3 : List Char × Option (List Char)) :
    Option (List (List Char)) × List Char :=
  let flagged : Bool := typ = ("user").toList || typ = ("system").toList
  if flagged && acceptPkgs r1 then (some (parsePkgsTyped r1.1), r1.1)
  else if flagged && acceptPkgs r2 then (some (parsePkgsTyped r2.1), r2.1)
  else
    match r3.2 with
    | some _ => (none, r3.1)
    | none => (some (parsePkgsTyped r3.1), r3.1)

/-- The spec's description of the fallback parse for claim C5: the
output's non-empty trimmed lines, each stripped of a leading "package:"
marker only (no "=" normalization). -/
def specStripOnly (out : List Char) : List (List Char) :=
  (((splitNl out).map goTrim).filter (fun t => t ≠ [])).map stripPkgMarker

/-- Claim C5 counterexample: with both precision-flag calls empty, a
fallback body whose line is "package:/data/app/x.apk=com.x" is parsed to
["com.x"] (the "=" normalization applies), not to the claimed verbatim
strip ["/data/app/x.apk=com.x"]. -/
theorem c5_typed_fallback_not_verbatim :
    (instPkgsTyped (("user").toList) ([], none) ([], none)
        ((("package:/data/app/x.apk=com.x").toList), none)).1
      = some [("com.x").toList]
    ∧ specStripOnly (("package:/data/app/x.apk=com.x").toList)
      = [("/data/app/x.apk=com.x").toList]
    ∧ [("com.x").toList] ≠ [("/data/app/x.apk=com.x").toList] := by
  refine ⟨by decide, by decide, by decide⟩

/-- The typed parse equals the spec-shaped pipeline with the "="
normalization composed on top. -/
theorem parsePkgsTyped_shape (out : List Char) :
    parsePkgsTyped out
      = (((splitNl out).map goTrim).filter (fun t => t ≠ [])).map
          (fun t => eqNorm (stripPkgMarker t)) := by
  unfold parsePkgsTyped
  induction splitNl out with
  | nil => rfl
  | cons l ls ih =>
    by_cases h : goTrim l = []
    · simpa [h] using ih
    · simpa [h] using ih

/-- Claim C5 (amended): whenever the two precision-flag calls yield an
empty body, the chain returns the unfiltered fallback call's output as the
package list, with every non-empty trimmed line stripped of a leading
"package:" marker and, when the line contains "=", reduced to the text
after its last "=". -/
theorem c5_typed_fallback_empty_body (typ : List Char)
    (r1 r2 r3 : List Char × Option (List Char))
    (h1 : goTrim r1.1 = []) (h2 : goTrim r2.1 = []) (h3 : r3.2 = none) :
    instPkgsTyped typ r1 r2 r3
      = (some ((((splitNl r3.1).map goTrim).filter (fun t => t ≠ [])).map
          (fun t => eqNorm (stripPkgMarker t))), r3.1) := by
  have ha1 : acceptPkgs r1 = false := by
    simp [acceptPkgs, h1]
  have ha2 : acceptPkgs r2 = false := by
    simp [acceptPkgs, h2]
  unfold instPkgsTyped
  rw [ha1, ha2]
  simp [h3, parsePkgsTyped_shape]

/-- Witness for the C5 theorem: empty flag-call bodies and a fallback body
of two package lines. -/
theorem c5_typed_fallback_empty_body_witness :
    instPkgsTyped (("user").toList) (("  ").toList, none) ([], some (("err").toList))
        ((("package:com.a\npackage:com.b\n").toList), none)
      = (some [("com.a").toList, ("com.b").toList],
         (("package:com.a\npackage:com.b\n").toList)) := by
  have h := c5_typed_fallback_empty_body (("user").toList)
    ((("  ").toList), none) ([], some (("err").toList))
    ((("package:com.a\npackage:com.b\n").toList), none)
    (by decide) (by decide) (by decide)
  rw [h]
  decide

/- ### ListDir: directory listing fallback chain and parsers (adb.go,
ListDir)

`ls -lAp` is tried first; on error or an unsupported-flag marker in the
output, `ls -lA`; if that still errors, a names-only `ls -1p` whose lines
are only trimmed, "."/".."-filtered, and split into name plus trailing
slash.  Long-format lines are trimmed; empty, ".", ".." and "total "
summary lines are skipped; with fewer than six fields only the name and
trailing slash are used; otherwise the first field is the mode (directory
when it begins with 'd'), the right-most integer-parsing field (index one
or later) is the size, the last field (trailing slash stripped) the name,
and the modification time is rebuilt from the two or one fields before
the name depending on the column count. -/

/-- A directory entry (adb.go `FileEntry`). -/
structure FileEntry where
  name : List Char
  isDir : Bool
  size : Int
  mode : List Char
  modTime : List Char
deriving DecidableEq

/-- Whether a line ends with the directory marker '/'. -/
def endsWithSlash (l : List Char) : Bool := l.getLast? = some '/'

/-- Model of `strings.TrimSuffix(l, "/")`. -/
def trimSuffixSlash (l : List Char) : List Char :=
  if l.getLast? = some '/' then l.dropLast else l

/-- One line of the long-format (`ls -l` style) parser. -/
def parseLongLine (ln : List Char) : Option FileEntry :=
  let line := goTrim ln
  if line = [] then none
  else if line = (".").toList then none
  else if line = ("..").toList then none
  else if startsWith (("total ").toList) line then none
  else
    let fs := goFields line
    if fs.length < 6 then
      let name := trimSuffixSlash line
      if name = [] then none
      else if name = (".").toList then none
      else if name = ("..").toList then none
      else some ⟨name, endsWithSlash line, 0, [], []⟩
    else
      let mode := fs.headI
      let isDir := startsWith (("d").toList) mode
      let numIdx := ((fs.enum.filter fun p =>
        decide (1 ≤ p.1) && (goParseInt64 p.2).isSome).map Prod.fst).getLast?
      let size : Int :=
        match numIdx with
        | some i => (goParseInt64 (fs.getD i [])).getD 0
        | none => 0
      let name := trimSuffixSlash (fs.getLast?.getD [])
      if name = [] then none
      else if name = (".").toList then none
      else if name = ("..").toList then none
      else
        let modTime : List Char :=
          if 8 ≤ fs.length then
            fs.getD (fs.length - 3) [] ++ ' ' :: fs.getD (fs.length - 2) []
          else if 7 ≤ fs.length then fs.getD (fs.length - 2) []
          else []
        some ⟨name, isDir, size, mode, modTime⟩

/-- The long-format parser over a list of lines. -/
def longParseLines (ls : List (List Char)) : List FileEntry :=
  ls.filterMap parseLongLine

/-- The long-format parser over raw output. -/
def longParse (out : List Char) : List FileEntry :=
  longParseLines (splitNl out)

/-- The names-only (`ls -1p`) fallback parser. -/
def namesOnlyParse (out : List Char) : List FileEntry :=
  (splitNl out).filterMap fun ln =>
    let name := goTrim ln
    if name = [] then none
    else if name = (".").toList then none
    else if name = ("..").toList then none
    else some ⟨trimSuffixSlash name, endsWithSlash name, 0, [], []⟩

/-- Result triple of the ListDir operation. -/
structure ListDirRes where
  entries : Option (List FileEntry)
  raw : List Char
  err : Option (List Char)
deriving DecidableEq

/-- The ListDir operation over the three command oracles: detailed
listing, detailed listing without dot-flag, names-only fallback. -/
def listDirOp (r1 r2 r3 : List Char × Option (List Char)) : ListDirRes :=
  let c1 :=
    if r1.2 ≠ none || containsSub (("Unknown option").toList) r1.1
        || containsSub (("bad -").toList) r1.1 then r2 else r1
  match c1.2 with
  | some e =>
    match r3.2 with
    | some _ => ⟨none, r3.1, some e⟩
    | none => ⟨some (namesOnlyParse r3.1), r3.1, none⟩
  | none => ⟨some (longParse c1.1), c1.1, none⟩

/-- A successful pattern match decomposes the string. -/
theorem startsWith_exists (p s : List Char) (h : startsWith p s = true) :
    ∃ r, s = p ++ r := by
  induction p generalizing s with
  | nil => exact ⟨s, rfl⟩
  | cons c cs ih =>
    match s with
    | [] => exact absurd h (by simp [startsWith])
    | c' :: s' =>
      simp only [startsWith, Bool.and_eq_true, decide_eq_true_eq] at h
      obtain ⟨r, hr⟩ := ih s' h.2
      exact ⟨r, by rw [h.1, hr]; rfl⟩

/-- A line whose trimmed form is a "total N" summary yields no entry in
the long-format parser. -/
theorem parseLongLine_total_none (l : List Char)
    (h : startsWith (("total ").toList) (goTrim l) = true) :
    parseLongLine l = none := by
  obtain ⟨r, hr⟩ := startsWith_exists _ _ h
  have hchars : ("total ").toList = 't' :: 'o' :: 't' :: 'a' :: 'l' :: ' ' :: [] := rfl
  rw [hchars] at hr
  unfold parseLongLine
  rw [hr]
  have h1 : ('t' :: 'o' :: 't' :: 'a' :: 'l' :: ' ' :: r) ≠ ([] : List Char) := by
    simp
  have h2 : ('t' :: 'o' :: 't' :: 'a' :: 'l' :: ' ' :: r) ≠ ['.'] := by
    intro hh
    injection hh with hc _
    exact absurd hc (by decide)
  have h3 : ('t' :: 'o' :: 't' :: 'a' :: 'l' :: ' ' :: r) ≠ ['.', '.'] := by
    intro hh
    injection hh with hc _
    exact absurd hc (by decide)
  have h4 : startsWith ['t', 'o', 't', 'a', 'l', ' ']
      ('t' :: 'o' :: 't' :: 'a' :: 'l' :: ' ' :: r) = true :=
    startsWith_append_self ['t', 'o', 't', 'a', 'l', ' '] r
  simp [h1, h2, h3, h4]

/-- Claim C6 counterexample: the names-only fallback branch does not skip
a "total N" summary line; on input "total 5\nfoo/" it returns an entry
named "total 5" derived from that line. -/
theorem c6_names_only_keeps_total :
    (listDirOp ([], some (("e1").toList)) ([], some (("e2").toList))
        ((("total 5\nfoo/").toList), none)).entries
      = some [⟨("total 5").toList, false, 0, [], []⟩,
              ⟨("foo").toList, true, 0, [], []⟩]
    ∧ ((listDirOp ([], some (("e1").toList)) ([], some (("e2").toList))
        ((("total 5\nfoo/").toList), none)).entries.getD []).any
        (fun e => startsWith (("total ").toList) e.name) = true := by
  refine ⟨by decide, by decide⟩

/-- Claim C6 (amended): in the long-format branches every line whose
trimmed form begins with "total " contributes no entry: deleting such a
line from the line sequence leaves the parsed entry sequence unchanged. -/
theorem c6_long_format_skips_total (pre post : List (List Char)) (l : List Char)
    (h : startsWith (("total ").toList) (goTrim l) = true) :
    longParseLines (pre ++ l :: post) = longParseLines (pre ++ post) := by
  unfold longParseLines
  rw [List.filterMap_append, List.filterMap_append]
  rw [List.filterMap_cons_none (parseLongLine_total_none l h)]

/-- Witness for the C6 theorem: removing the "total 3" line leaves the
sample listing's entries unchanged. -/
theorem c6_long_format_skips_total_witness :
    longParseLines ([("total 3").toList,
        ("drwxr-xr-x 2 root root 4096 2024-01-01 12:00 sub/").toList])
      = longParseLines [("drwxr-xr-x 2 root root 4096 2024-01-01 12:00 sub/").toList] :=
  c6_long_format_skips_total [] [("drwxr-xr-x 2 root root 4096 2024-01-01 12:00 sub/").toList]
    (("total 3").toList) (by decide)

/- ### ExtractAppData: two-strategy privilege fallback (adb.go,
ExtractAppData)

The run-as tar stream is tried first; on a non-nil error or zero bytes the
su tar stream replaces it; if the chosen result still has an error or zero
bytes, nothing is written and the degraded "not available" message is
returned with that error.  Otherwise the chosen byte stream is written
verbatim to `data.tar` inside the destination directory.  Raw byte
streams are `List Nat`; the filesystem write is modelled as succeeding,
with `written` recording the payload (or `none`). -/

/-- Result of the ExtractAppData operation: the bytes written to the local
archive (none when nothing is written), the returned message, and the
returned error. -/
structure ExtractRes where
  written : Option (List Nat)
  msg : List Char
  err : Option (List Char)
deriving DecidableEq

/-- Model of `filepath.Join(destDir, "data.tar")`. -/
def tarPath (destDir : List Char) : List Char :=
  destDir ++ '/' :: ("data.tar").toList

/-- The ExtractAppData operation over the two raw-exec oracles
(run-as strategy, then su strategy). -/
def extractAppData (pkg destDir : List Char)
    (r1 r2 : List Nat × Option (List Char)) : ExtractRes :=
  if goTrim pkg = [] then ⟨none, [], some (("empty package").toList)⟩
  else
    let dd := if destDir = [] then pkg else destDir
    let c := if r1.2 ≠ none || r1.1 = [] then r2 else r1
    if c.2 ≠ none || c.1 = [] then
      ⟨none, ("app data tar not available (requires debuggable app or root)").toList, c.2⟩
    else
      ⟨some c.1, ("app data archived to ").toList ++ tarPath dd, none⟩

/-- A strategy result is a success when it carries no error and a
non-empty byte stream. -/
def okStrat (r : List Nat × Option (List Char)) : Bool :=
  r.2 = none && r.1 ≠ []

/-- Claim C7: the archive is written exactly when a strategy succeeds
(no error and non-empty bytes) and the package name is non-blank; the
payload is the first successful strategy's byte stream taken whole (run-as
wins, the two streams are never combined), and when both strategies fail
or yield zero bytes nothing is written and the degraded "not available"
message is returned. -/
theorem c7_extract_two_strategy (pkg destDir : List Char)
    (r1 r2 : List Nat × Option (List Char)) :
    (extractAppData pkg destDir r1 r2).written
      = (if goTrim pkg = [] then none
         else if okStrat r1 then some r1.1
         else if okStrat r2 then some r2.1
         else none)
    ∧ (match (extractAppData pkg destDir r1 r2).written with
       | none => True
       | some b => b = r1.1 ∨ b = r2.1)
    ∧ (extractAppData pkg destDir r1 r2).msg
      = (if goTrim pkg = [] then []
         else if okStrat r1 then
           ("app data archived to ").toList
             ++ tarPath (if destDir = [] then pkg else destDir)
         else if okStrat r2 then
           ("app data archived to ").toList
             ++ tarPath (if destDir = [] then pkg else destDir)
         else ("app data tar not available (requires debuggable app or root)").toList) := by
  refine ⟨?_, ?_, ?_⟩
  · unfold extractAppData okStrat
    by_cases hp : goTrim pkg = []
    · simp [hp]
    · rcases h1 : r1.2 with _ | e1 <;> rcases h2 : r2.2 with _ | e2 <;>
        by_cases hb1 : r1.1 = [] <;> by_cases hb2 : r2.1 = [] <;>
        simp [hp, h1, h2, hb1, hb2]
  · unfold extractAppData
    by_cases hp : goTrim pkg = []
    · simp [hp]
    · rcases h1 : r1.2 with _ | e1 <;> rcases h2 : r2.2 with _ | e2 <;>
        by_cases hb1 : r1.1 = [] <;> by_cases hb2 : r2.1 = [] <;>
        simp [hp, h1, h2, hb1, hb2]
  · unfold extractAppData okStrat
    by_cases hp : goTrim pkg = []
    · simp [hp]
    · rcases h1 : r1.2 with _ | e1 <;> rcases h2 : r2.2 with _ | e2 <;>
        by_cases hb1 : r1.1 = [] <;> by_cases hb2 : r2.1 = [] <;>
        simp [hp, h1, h2, hb1, hb2]

/- ### PushMultiple / PullMultiple: multi-file transfer batches (adb.go,
PushMultiple and PullMultiple)

Both loop over their targets, calling `Push` (resp. `Pull`) once per
target, appending every call's output, and remembering the first non-nil
error; neither loop contains any inter-call delay (there is no
`time.Sleep` in either function).  The per-target call is an oracle, and
an event trace records every externally visible action the loop performs:
one call event per target and a sleep event wherever the code would
sleep (it never does). -/

/-- Externally visible action of a batch loop iteration. -/
inductive BatchEv where
  | pushCall (p : List Char)
  | pullCall (p : List Char)
  | sleep (ms : Nat)
deriving DecidableEq

/-- Whether an event is a sleep. -/
def isSleepEv : BatchEv → Bool
  | BatchEv.sleep _ => true
  | _ => false

/-- One batch loop: collect outputs, keep the first error, record events. -/
def batchLoop (call : List Char → List Char × Option (List Char))
    (ev : List Char → BatchEv) (paths : List (List Char)) :
    List (List Char) × Option (List Char) × List BatchEv :=
  paths.foldl
    (fun acc p =>
      let r := call p
      (acc.1 ++ [r.1],
       (match acc.2.1 with
        | some e => some e
        | none => r.2),
       acc.2.2 ++ [ev p]))
    ([], none, [])

/-- The PushMultiple operation over the per-file `Push` oracle: empty
input is rejected, otherwise all outputs are joined with newlines and the
first error is returned, together with the event trace. -/
def pushMultiple (push : List Char → List Char × Option (List Char))
    (localPaths : List (List Char)) :
    (List Char × Option (List Char)) × List BatchEv :=
  if localPaths = [] then (([], some (("no files to push").toList)), [])
  else
    let t := batchLoop push BatchEv.pushCall localPaths
    ((joinNl t.1, t.2.1), t.2.2)

/-- The PullMultiple operation over the per-file `Pull` oracle (the local
directory creation is modelled as succeeding). -/
def pullMultiple (pull : List Char → List Char × Option (List Char))
    (remotePaths : List (List Char)) :
    (List Char × Option (List Char)) × List BatchEv :=
  if remotePaths = [] then (([], some (("no files to pull").toList)), [])
  else
    let t := batchLoop pull BatchEv.pullCall remotePaths
    ((joinNl t.1, t.2.1), t.2.2)

theorem batchLoop_spec (call : List Char → List Char × Option (List Char))
    (ev : List Char → BatchEv) (paths : List (List Char)) :
    batchLoop call ev paths
      = (paths.map (fun p => (call p).1),
         firstSome (paths.map (fun p => (call p).2)),
         paths.map ev) := by
  have key : ∀ (ps : List (List Char)) (outs : List (List Char))
      (err : Option (List Char)) (tr : List BatchEv),
      ps.foldl
        (fun acc p =>
          let r := call p
          (acc.1 ++ [r.1],
           (match acc.2.1 with
            | some e => some e
            | none => r.2),
           acc.2.2 ++ [ev p]))
        (outs, err, tr)
      = (outs ++ ps.map (fun p => (call p).1),
         (match err with
          | some e => some e
          | none => firstSome (ps.map (fun p => (call p).2))),
         tr ++ ps.map ev) := by
    intro ps
    induction ps with
    | nil =>
      intro outs err tr
      cases err <;> simp [firstSome]
    | cons p ps' ih =>
      intro outs err tr
      rw [List.foldl_cons, ih]
      cases err with
      | none =>
        rcases hc : (call p).2 with _ | e <;> simp [firstSome, hc]
      | some e => simp [firstSome]
  have := key paths [] none []
  simpa [batchLoop] using this

/-- Claim C8 counterexample: on a two-file batch the PushMultiple loop's
event trace is exactly the two per-file calls with no sleep event between
them — there is no inter-call delay. -/
theorem c8_push_multiple_no_delay :
    (pushMultiple (fun p => (("ok ").toList ++ p, none))
        [("a.txt").toList, ("b.txt").toList]).2
      = [BatchEv.pushCall (("a.txt").toList), BatchEv.pushCall (("b.txt").toList)]
    ∧ ((pushMultiple (fun p => (("ok ").toList ++ p, none))
        [("a.txt").toList, ("b.txt").toList]).2.all
        fun e => !isSleepEv e) = true := by
  refine ⟨by decide, by decide⟩

/-- Claim C8 (amended): for every non-empty input list both multi-file
batch operations attempt every target exactly once, in order, with no
sleep event in the trace; all per-target outputs are joined with newlines
into the returned diagnostic text, and the first error encountered is
returned alongside it. -/
theorem c8_batch_all_targets (push pull : List Char → List Char × Option (List Char))
    (paths rpaths : List (List Char)) (hp : paths ≠ []) (hr : rpaths ≠ []) :
    (pushMultiple push paths).2 = paths.map BatchEv.pushCall
    ∧ (pushMultiple push paths).1.1 = joinNl (paths.map fun p => (push p).1)
    ∧ (pushMultiple push paths).1.2 = firstSome (paths.map fun p => (push p).2)
    ∧ (pullMultiple pull rpaths).2 = rpaths.map BatchEv.pullCall
    ∧ (pullMultiple pull rpaths).1.1 = joinNl (rpaths.map fun p => (pull p).1)
    ∧ (pullMultiple pull rpaths).1.2 = firstSome (rpaths.map fun p => (pull p).2) := by
  unfold pushMultiple pullMultiple
  rw [if_neg hp, if_neg hr, batchLoop_spec, batchLoop_spec]
  exact ⟨rfl, rfl, rfl, rfl, rfl, rfl⟩

/-- Witness for the C8 theorem on concrete one-element batches. -/
theorem c8_batch_all_targets_witness :
    (pushMultiple (fun _ => (("pushed").toList, none)) [("a").toList]).2
      = [("a").toList].map BatchEv.pushCall
    ∧ (pullMultiple (fun _ => ([], some (("fail").toList))) [("r").toList]).1.2
      = firstSome ([("r").toList].map
          fun p => ((fun _ => (([] : List Char), some (("fail").toList))) p).2) := by
  have h := c8_batch_all_targets (fun _ => (("pushed").toList, none))
    (fun _ => ([], some (("fail").toList)))
    [("a").toList] [("r").toList] (by decide) (by decide)
  exact ⟨h.1, h.2.2.2.2.2⟩

/- ### Label Enrichment Scheduler (ui.go, buildApplicationsTab:
labelFetchRunning / fetchGen / startLabelFetch and the fetch goroutine)

State: the `labelFetchRunning` flag, the `fetchGen` counter, the active
run (its captured generation `localGen`, the remaining snapshot, and its
processed-entry count), and the labels published so far.  `startLabelFetch`
returns immediately when a run is active; otherwise it sets the flag and
captures the current generation and snapshot.  Each loop iteration first
compares the captured generation with the current one and abandons the run
on mismatch; then it skips entries without a '.', stops the run on an
offline/unauthorized/"no devices" signal in a failed AppLabel call,
publishes a usable label (non-empty, not "null", different from the raw
identifier), and ends the run after 40 processed entries.  The AppLabel
result of the current entry is an oracle carried by the step event.  The
whole repository contains no write to `fetchGen` besides its
initialization to zero (ui.go:295, themeutil.go:344), so the model has no
transition that changes it. -/

/-- An active enrichment run: captured generation, remaining snapshot,
processed-entry count. -/
structure FetchRun where
  gen : Nat
  remaining : List (List Char)
  count : Nat
deriving DecidableEq

/-- Scheduler state. -/
structure SchedState where
  running : Bool
  fetchGen : Nat
  activeRun : Option FetchRun
  published : List (List Char × List Char)
deriving DecidableEq

/-- Initial scheduler state (`labelFetchRunning := false`, `fetchGen := 0`). -/
def initSched : SchedState := ⟨false, 0, none, []⟩

/-- `startLabelFetch`: a no-op while a run is active; otherwise begin a
run capturing the current generation and the snapshot. -/
def startLabelFetch (snapshot : List (List Char)) (s : SchedState) : SchedState :=
  if s.running then s
  else { s with running := true, activeRun := some ⟨s.fetchGen, snapshot, 0⟩ }

/-- The run's goroutine terminating (deferred `labelFetchRunning = false`). -/
def endRun (s : SchedState) : SchedState := { s with running := false, activeRun := none }

/-- The offline/unauthorized/disconnected signal scanned for in the
lower-cased output-plus-error text. -/
def offlineSignal (lo : List Char) : Bool :=
  containsSub (("offline").toList) lo || containsSub (("unauthorized").toList) lo
    || containsSub (("no devices").toList) lo

/-- One loop iteration of the fetch goroutine, with the AppLabel result
`(name, out, err)` of the current entry supplied as an oracle. -/
def stepRun (oracle : List Char × List Char × Option (List Char))
    (s : SchedState) : SchedState :=
  match s.activeRun with
  | none => s
  | some r =>
    if r.gen ≠ s.fetchGen then endRun s
    else
      match r.remaining with
      | [] => endRun s
      | p :: rest =>
        if ¬ (p.any fun c => c = '.') then
          { s with activeRun := some ⟨r.gen, rest, r.count⟩ }
        else
          let name := oracle.1
          let out := oracle.2.1
          let stop :=
            match oracle.2.2 with
            | some etxt => offlineSignal (toLowerAscii (out ++ ' ' :: etxt))
            | none => false
          if stop then endRun s
          else
            let nm := goTrim name
            let pub :=
              if nm ≠ [] && toLowerAscii nm ≠ ("null").toList && nm ≠ p then
                s.published ++ [(p, nm)]
              else s.published
            if 40 ≤ r.count + 1 then endRun { s with published := pub }
            else { s with published := pub, activeRun := some ⟨r.gen, rest, r.count + 1⟩ }

/-- An externally triggered scheduler event: a start request with its
package-list snapshot, or one goroutine loop iteration with its AppLabel
oracle. -/
inductive SchedEv where
  | start (snapshot : List (List Char))
  | step (oracle : List Char × List Char × Option (List Char))

/-- Apply one event. -/
def schedApply (s : SchedState) : SchedEv → SchedState
  | SchedEv.start snap => startLabelFetch snap s
  | SchedEv.step oracle => stepRun oracle s

/-- Run an event sequence from the initial state. -/
def schedRun (evs : List SchedEv) : SchedState :=
  evs.foldl schedApply initSched

/-- The generation of the active run, zero when idle. -/
def runGenZero : Option FetchRun → Bool
  | none => true
  | some r => r.gen = 0

theorem schedApply_fetchGen (s : SchedState) (e : SchedEv) :
    (schedApply s e).fetchGen = s.fetchGen := by
  cases e with
  | start snap =>
    show (startLabelFetch snap s).fetchGen = s.fetchGen
    unfold startLabelFetch
    split <;> rfl
  | step oracle =>
    show (stepRun oracle s).fetchGen = s.fetchGen
    unfold stepRun
    rcases s.activeRun with _ | r
    · rfl
    · simp only []
      split
      · rfl
      · rcases r.remaining with _ | ⟨p, rest⟩
        · rfl
        · simp only []
          split
          · rfl
          · split
            · rfl
            · split <;> rfl

theorem schedApply_invariant (s : SchedState) (e : SchedEv)
    (h : s.fetchGen = 0 ∧ runGenZero s.activeRun = true) :
    (schedApply s e).fetchGen = 0 ∧ runGenZero (schedApply s e).activeRun = true := by
  obtain ⟨hg, hr⟩ := h
  refine ⟨(schedApply_fetchGen s e).trans hg, ?_⟩
  cases e with
  | start snap =>
    show runGenZero (startLabelFetch snap s).activeRun = true
    unfold startLabelFetch
    split
    · exact hr
    · simp [runGenZero, hg]
  | step oracle =>
    show runGenZero (stepRun oracle s).activeRun = true
    unfold stepRun
    rcases ha : s.activeRun with _ | r
    · exact hr
    · rw [ha] at hr
      simp only []
      split
      · rfl
      · rcases r.remaining with _ | ⟨p, rest⟩
        · rfl
        · simp only []
          split
          · simpa [runGenZero] using hr
          · split
            · rfl
            · split
              · rfl
              · simpa [runGenZero] using hr

/-- Claim C4 (scheduler model): a start request while a run is active is a
no-op; and after any sequence of start requests and loop iterations from
the initial state the generation counter is still zero and any active
run's captured generation is zero — no event increments `fetchGen`, so the
per-entry supersession check `gen != fetchGen` can never observe a newer
generation and the described abandon-on-supersession path is unreachable. -/
theorem c4_label_fetch_dead_generation :
    (∀ (s : SchedState) (snap : List (List Char)),
        startLabelFetch snap { s with running := true } = { s with running := true })
    ∧ (∀ evs : List SchedEv,
        (schedRun evs).fetchGen = 0 ∧ runGenZero (schedRun evs).activeRun = true) := by
  constructor
  · intro s snap
    unfold startLabelFetch
    rw [if_pos rfl]
  · intro evs
    have key : ∀ (l : List SchedEv) (s : SchedState),
        s.fetchGen = 0 ∧ runGenZero s.activeRun = true →
        (l.foldl schedApply s).fetchGen = 0
          ∧ runGenZero (l.foldl schedApply s).activeRun = true := by
      intro l
      induction l with
      | nil => intro s h; exact h
      | cons e l' ih =>
        intro s h
        exact ih (schedApply s e) (schedApply_invariant s e h)
    exact key evs initSched ⟨rfl, rfl⟩

end AdbGui
